import Mathlib

set_option maxHeartbeats 1000000

/-!
Shallow embedding of the artifact persistence and output-stitching layer of
this repository: the LMDB-backed cache (LMDBCache), the public asset wrappers
(Asset / MutableAsset / CommittedAsset) and the bundle reference replacement
utilities (replaceBundleReferences.js).

Modelling conventions:
- JS Maps are insertion-ordered association lists (mapSet / mapLookup).
- Byte payloads (Buffer) and JS strings are lists of numbers / characters;
  string slicing by code units and buffer subarray slicing coincide, so both
  payload forms of setLargeBlob share one model.
- The chunk file written by the large-blob API at path key-<i> inside the
  cache directory (LMDBCache.#getFilePath) is modelled by the pair (key, i).
- Promises are modelled by their settled outcome: a resolved value is the
  plain value, a rejection is an Except.error.
-/

/-- JS Map.prototype.set: replace the value in place when the key is already
bound (keeping its position), otherwise append the new binding at the end. -/
def mapSet {κ ν : Type} [DecidableEq κ] : List (κ × ν) → κ → ν → List (κ × ν)
  | [], k, v => [(k, v)]
  | (k', v') :: rest, k, v =>
    if k' = k then (k', v) :: rest else (k', v') :: mapSet rest k v

/-- JS Map.prototype.get: the value of the binding for the key, if any. -/
def mapLookup {κ ν : Type} [DecidableEq κ] : List (κ × ν) → κ → Option ν
  | [], _ => none
  | (k', v') :: rest, k => if k' = k then some v' else mapLookup rest k

theorem mapLookup_mapSet_self {κ ν : Type} [DecidableEq κ]
    (m : List (κ × ν)) (k : κ) (v : ν) : mapLookup (mapSet m k v) k = some v := by
  induction m with
  | nil => simp [mapSet, mapLookup]
  | cons hd tl ih =>
    obtain ⟨k', v'⟩ := hd
    by_cases h : k' = k <;> simp [mapSet, mapLookup, h, ih]

theorem mapLookup_mapSet_ne {κ ν : Type} [DecidableEq κ]
    (m : List (κ × ν)) (k k' : κ) (v : ν) (h : k' ≠ k) :
    mapLookup (mapSet m k' v) k = mapLookup m k := by
  induction m with
  | nil => simp [mapSet, mapLookup, h]
  | cons hd tl ih =>
    obtain ⟨k₀, v₀⟩ := hd
    by_cases h0 : k₀ = k'
    · subst h0
      simp [mapSet, mapLookup, h]
    · simp [mapSet, mapLookup, h0, ih]

/-! ## Persistent artifact store: LMDBCache -/

/-- A byte payload. -/
abbrev Buffer := List Nat

/-- The lmdb key/value store backing an LMDBCache instance. -/
abbrev Store := List (String × Buffer)

/-- The filesystem directory of chunk files written by the large-blob API:
the file at path key-<i> is modelled by the composite key (key, i). -/
abbrev ChunkFS := List ((String × Nat) × Buffer)

/-- Read a chunk file; the newest binding for a path shadows older ones. -/
def fsLookup (fs : ChunkFS) (key : String) (i : Nat) : Option Buffer :=
  match fs with
  | [] => none
  | (ki, data) :: rest => if ki = (key, i) then some data else fsLookup rest key i

/-- fs.writeFile on a chunk file: bind the path to the new contents. -/
def writeFile (fs : ChunkFS) (key : String) (i : Nat) (data : Buffer) : ChunkFS :=
  ((key, i), data) :: fs

/-- fs.exists on a chunk file. -/
def fsExists (fs : ChunkFS) (key : String) (i : Nat) : Bool :=
  (fsLookup fs key i).isSome

/-- LMDBCache.get: an absent key resolves to null; a present value is passed
through deserialize (a collaborator from the core serializer). -/
def LMDBCache.get {T : Type} (deserialize : Buffer → T) (store : Store)
    (key : String) : Option T :=
  match mapLookup store key with
  | none => none
  | some data => some (deserialize data)

/-- LMDBCache.getBlob: a present key resolves to the stored buffer, an absent
key rejects with the NotFound error message. -/
def LMDBCache.getBlob (store : Store) (key : String) : Except String Buffer :=
  match mapLookup store key with
  | some buffer => .ok buffer
  | none => .error ("Key " ++ key ++ " not found in cache")

/-- LMDBCache.getBuffer: absent keys resolve to the absent value. -/
def LMDBCache.getBuffer (store : Store) (key : String) : Option Buffer :=
  mapLookup store key

/-- LMDBCache.hasLargeBlob: probe the chunk file with index 0. -/
def LMDBCache.hasLargeBlob (fs : ChunkFS) (key : String) : Bool :=
  fsExists fs key 0

/-- The while loop of LMDBCache.getLargeBlob: read chunk files at ascending
indices starting from i until the first missing index, concatenating their
contents in index order.  The JS loop carries no fuel; since every successful
iteration consumes one distinct binding of the finite chunk directory, the
loop runs at most fs.length times, so getLargeBlob below supplies fuel
fs.length + 1, which is never exhausted before the first missing index. -/
def LMDBCache.getLargeBlobAux (fs : ChunkFS) (key : String) : Nat → Nat → Buffer
  | _, 0 => []
  | i, fuel + 1 =>
    match fsLookup fs key i with
    | none => []
    | some chunk => chunk ++ LMDBCache.getLargeBlobAux fs key (i + 1) fuel

/-- LMDBCache.getLargeBlob: Buffer.concat of the chunk files in index order. -/
def LMDBCache.getLargeBlob (fs : ChunkFS) (key : String) : Buffer :=
  LMDBCache.getLargeBlobAux fs key 0 (fs.length + 1)

/-- LMDBCache.setLargeBlob.  W is the WRITE_LIMIT_CHUNK constant (imported by
the source from ./constants, outside this repository slice), a positive chunk
size; Math.ceil(contents.length / W) is (contents.length + W - 1) / W in
natural division.  One chunk is written without slicing; otherwise chunk i
receives contents.slice(i * W, (i + 1) * W). -/
def LMDBCache.setLargeBlob (W : Nat) (fs : ChunkFS) (key : String)
    (contents : Buffer) : ChunkFS :=
  let chunks := (contents.length + W - 1) / W
  if chunks = 1 then
    writeFile fs key 0 contents
  else
    (List.range chunks).foldl
      (fun f i => writeFile f key i ((contents.drop (i * W)).take W)) fs

theorem fsLookup_writeFile_self (fs : ChunkFS) (key : String) (i : Nat)
    (data : Buffer) : fsLookup (writeFile fs key i data) key i = some data := by
  simp [writeFile, fsLookup]

theorem fsLookup_writeFile_ne (fs : ChunkFS) (key key' : String) (i j : Nat)
    (data : Buffer) (h : (key', j) ≠ (key, i)) :
    fsLookup (writeFile fs key' j data) key i = fsLookup fs key i := by
  simp [writeFile, fsLookup, h]

/-- Claim C5: getBlob on an absent key fails with the NotFound error, while
get and getBuffer on the same absent key succeed with an absent value. -/
theorem getBlob_notfound_get_getBuffer_absent {T : Type}
    (deserialize : Buffer → T) (store : Store) (key : String)
    (h : mapLookup store key = none) :
    LMDBCache.getBlob store key
        = Except.error ("Key " ++ key ++ " not found in cache")
    ∧ LMDBCache.get deserialize store key = none
    ∧ LMDBCache.getBuffer store key = none := by
  refine ⟨?_, ?_, ?_⟩ <;>
    simp [LMDBCache.getBlob, LMDBCache.get, LMDBCache.getBuffer, h]

/-- Witness for claim C5 at a concrete store that lacks the key "k". -/
theorem getBlob_notfound_get_getBuffer_absent_witness :
    LMDBCache.getBlob [("other", [1, 2])] "k"
        = Except.error ("Key " ++ "k" ++ " not found in cache")
    ∧ LMDBCache.get (fun b => b) [("other", [1, 2])] "k" = none
    ∧ LMDBCache.getBuffer [("other", [1, 2])] "k" = none :=
  getBlob_notfound_get_getBuffer_absent (fun b => b) [("other", [1, 2])] "k"
    (by decide)

/-- Claim C8: hasLargeBlob is exactly the existence probe of the chunk file
with index 0; writing any higher-indexed chunk file leaves it unchanged,
while writing chunk 0 makes it true. -/
theorem hasLargeBlob_probes_chunk_zero (fs : ChunkFS) (key : String) :
    (LMDBCache.hasLargeBlob fs key = (fsLookup fs key 0).isSome)
    ∧ (∀ j c, LMDBCache.hasLargeBlob (writeFile fs key (j + 1) c) key
        = LMDBCache.hasLargeBlob fs key)
    ∧ (∀ c, LMDBCache.hasLargeBlob (writeFile fs key 0 c) key = true) := by
  refine ⟨rfl, ?_, ?_⟩
  · intro j c
    simp [LMDBCache.hasLargeBlob, fsExists, writeFile, fsLookup]
  · intro c
    simp [LMDBCache.hasLargeBlob, fsExists, writeFile, fsLookup]

theorem writeFile_length (fs : ChunkFS) (key : String) (i : Nat)
    (data : Buffer) : (writeFile fs key i data).length = fs.length + 1 := rfl

theorem fold_writeFile_length (fs : ChunkFS) (key : String) (g : Nat → Buffer)
    (n : Nat) :
    ((List.range n).foldl (fun f i => writeFile f key i (g i)) fs).length
      = fs.length + n := by
  induction n with
  | zero => simp
  | succ n ih =>
    rw [List.range_succ, List.foldl_append, List.foldl_cons, List.foldl_nil,
      writeFile_length, ih]
    omega

theorem fold_writeFile_lookup (fs : ChunkFS) (key : String) (g : Nat → Buffer)
    (n i : Nat) :
    fsLookup ((List.range n).foldl (fun f j => writeFile f key j (g j)) fs) key i
      = if i < n then some (g i) else fsLookup fs key i := by
  induction n with
  | zero => simp
  | succ n ih =>
    rw [List.range_succ, List.foldl_append]
    by_cases h : i = n
    · subst h
      simp [fsLookup_writeFile_self]
    · rw [List.foldl_cons, List.foldl_nil,
        fsLookup_writeFile_ne _ _ _ _ _ _ (by simp; omega), ih]
      by_cases hlt : i < n
      · simp [hlt, Nat.lt_succ_of_lt hlt]
      · have : ¬ i < n + 1 := by omega
        simp [hlt, this]

theorem getLargeBlobAux_spec (fs : ChunkFS) (key : String) (g : Nat → Buffer)
    (n : Nat)
    (hlook : ∀ i, fsLookup fs key i = if i < n then some (g i) else none) :
    ∀ fuel j, n ≤ j + fuel →
      LMDBCache.getLargeBlobAux fs key j fuel
        = ((List.range' j (n - j)).map g).flatten := by
  intro fuel
  induction fuel with
  | zero =>
    intro j hj
    have : n - j = 0 := by omega
    simp [LMDBCache.getLargeBlobAux, this]
  | succ fuel ih =>
    intro j hj
    by_cases hlt : j < n
    · have hj' : n - j = (n - (j + 1)) + 1 := by omega
      rw [LMDBCache.getLargeBlobAux, hlook j, if_pos hlt, hj', List.range'_succ,
        List.map_cons, List.flatten_cons, ih (j + 1) (by omega)]
    · have h0 : n - j = 0 := by omega
      rw [LMDBCache.getLargeBlobAux, hlook j, if_neg hlt, h0]
      simp

theorem join_chunk_slices (W : Nat) (hW : 0 < W) :
    ∀ (n : Nat) (l : Buffer), l.length ≤ n →
      ((List.range ((l.length + W - 1) / W)).map
        (fun i => (l.drop (i * W)).take W)).flatten = l := by
  intro n
  induction n with
  | zero =>
    intro l hl
    have hl0 : l = [] := by
      cases l with
      | nil => rfl
      | cons a l => simp at hl
    subst hl0
    have : (0 + W - 1) / W = 0 := Nat.div_eq_of_lt (by omega)
    simp [this]
  | succ n ih =>
    intro l hl
    cases l with
    | nil =>
      have : (0 + W - 1) / W = 0 := Nat.div_eq_of_lt (by omega)
      simp [this]
    | cons a t =>
      set l := a :: t with hldef
      have hlen : 1 ≤ l.length := by simp [hldef]
      have hchunks : (l.length + W - 1) / W = (l.length - 1) / W + 1 := by
        have h1 : l.length + W - 1 = (l.length - 1) + W := by omega
        rw [h1, Nat.add_div_right _ hW]
      by_cases hsmall : l.length ≤ W
      · have h2 : (l.length - 1) / W = 0 := Nat.div_eq_of_lt (by omega)
        rw [hchunks, h2]
        have hr1 : List.range (0 + 1) = [0] := by simp [List.range_succ]
        rw [hr1]
        simp only [List.map_cons, List.map_nil, Nat.zero_mul,
          List.drop_zero, List.flatten_cons, List.flatten_nil, List.append_nil]
        exact List.take_of_length_le hsmall
      · have hbig : W < l.length := by omega
        have hdl : (l.drop W).length = l.length - W := by simp
        have hchunks' : ((l.drop W).length + W - 1) / W
            = ((l.drop W).length - 1) / W + 1 := by
          have h1 : (l.drop W).length + W - 1 = ((l.drop W).length - 1) + W := by
            omega
          rw [h1, Nat.add_div_right _ hW]
        have hstep : (l.length - 1) / W = (l.length - W - 1) / W + 1 := by
          have h1 : l.length - 1 = (l.length - W - 1) + W := by omega
          rw [h1, Nat.add_div_right _ hW]
        have hih := ih (l.drop W) (by omega)
        rw [hchunks, hstep, List.range_succ_eq_map]
        simp only [List.map_cons, Nat.zero_mul, List.drop_zero, List.map_map,
          List.flatten_cons]
        have hmaps : ∀ i : Nat, ((fun i => (l.drop (i * W)).take W) ∘ Nat.succ) i
            = (fun i => ((l.drop W).drop (i * W)).take W) i := by
          intro i
          simp only [Function.comp]
          rw [List.drop_drop, Nat.succ_mul, Nat.add_comm (i * W) W]
        rw [List.map_congr_left (fun i _ => hmaps i)]
        have hrw : (l.length - W - 1) / W = ((l.drop W).length - 1) / W := by
          rw [hdl]
        rw [hrw, ← hchunks']
        rw [hih]
        exact List.take_append_drop W l

theorem setLargeBlob_chunks_le_one_length (W : Nat) (hW : 0 < W) (l : Buffer)
    (h : (l.length + W - 1) / W = 1) : l.length ≤ W := by
  by_contra hbig
  have h2 : 2 * W ≤ l.length + W - 1 := by omega
  have : 2 ≤ (l.length + W - 1) / W := (Nat.le_div_iff_mul_le hW).mpr h2
  omega

theorem setLargeBlob_lookup (W : Nat) (hW : 0 < W) (fs : ChunkFS) (key : String)
    (contents : Buffer) (i : Nat) :
    fsLookup (LMDBCache.setLargeBlob W fs key contents) key i
      = if i < (contents.length + W - 1) / W
        then some ((contents.drop (i * W)).take W)
        else fsLookup fs key i := by
  rw [LMDBCache.setLargeBlob]
  by_cases hone : (contents.length + W - 1) / W = 1
  · have hsmall := setLargeBlob_chunks_le_one_length W hW contents hone
    rw [if_pos hone]
    by_cases hi : i = 0
    · subst hi
      rw [fsLookup_writeFile_self, if_pos (by omega)]
      simp [List.take_of_length_le hsmall]
    · rw [fsLookup_writeFile_ne _ _ _ _ _ _ (by simp; omega),
        if_neg (by omega)]
  · rw [if_neg hone, fold_writeFile_lookup]

theorem setLargeBlob_length_ge (W : Nat) (fs : ChunkFS) (key : String)
    (contents : Buffer) :
    (contents.length + W - 1) / W ≤ (LMDBCache.setLargeBlob W fs key contents).length := by
  rw [LMDBCache.setLargeBlob]
  by_cases hone : (contents.length + W - 1) / W = 1
  · rw [if_pos hone, hone]
    simp [writeFile]
  · rw [if_neg hone, fold_writeFile_length]
    omega

/-- Claim C4: for every payload (empty, sub-chunk, exact chunk multiple, or
spanning several chunks), setLargeBlob followed by getLargeBlob on a key with
no pre-existing chunk files returns the payload byte-identically, the chunks
being reassembled by concatenation in ascending index order. -/
theorem setLargeBlob_getLargeBlob_roundtrip (W : Nat) (hW : 0 < W)
    (fs : ChunkFS) (key : String) (contents : Buffer)
    (hfresh : ∀ i, fsLookup fs key i = none) :
    LMDBCache.getLargeBlob (LMDBCache.setLargeBlob W fs key contents) key
      = contents := by
  set chunks := (contents.length + W - 1) / W with hchunks
  have hlook : ∀ i,
      fsLookup (LMDBCache.setLargeBlob W fs key contents) key i
        = if i < chunks then some ((contents.drop (i * W)).take W) else none := by
    intro i
    rw [setLargeBlob_lookup W hW fs key contents i, ← hchunks]
    by_cases h : i < chunks
    · simp [h]
    · simp [h, hfresh i]
  rw [LMDBCache.getLargeBlob,
    getLargeBlobAux_spec _ _ _ chunks hlook _ 0
      (by have := setLargeBlob_length_ge W fs key contents; omega)]
  rw [Nat.sub_zero, ← List.range_eq_range']
  exact join_chunk_slices W hW contents.length contents le_rfl

/-- Witness for claim C4: chunk size 2, a five-byte payload spanning three
chunks, written into an empty chunk directory. -/
theorem setLargeBlob_getLargeBlob_roundtrip_witness :
    LMDBCache.getLargeBlob (LMDBCache.setLargeBlob 2 [] "k" [1, 2, 3, 4, 5]) "k"
      = [1, 2, 3, 4, 5] :=
  setLargeBlob_getLargeBlob_roundtrip 2 (by decide) [] "k" [1, 2, 3, 4, 5]
    (fun _ => rfl)

/-- Claim C10: setLargeBlob with empty contents writes no chunk files at all,
so on a key not otherwise written hasLargeBlob stays false and getLargeBlob
returns the empty buffer: the empty large blob is indistinguishable from a
never-written key. -/
theorem empty_setLargeBlob_invisible (W : Nat) (hW : 0 < W) (fs : ChunkFS)
    (key : String) :
    LMDBCache.setLargeBlob W fs key [] = fs
    ∧ (fsLookup fs key 0 = none →
        LMDBCache.hasLargeBlob (LMDBCache.setLargeBlob W fs key []) key = false)
    ∧ ((∀ i, fsLookup fs key i = none) →
        LMDBCache.getLargeBlob (LMDBCache.setLargeBlob W fs key []) key = []) := by
  have hzero : (List.length ([] : Buffer) + W - 1) / W = 0 :=
    Nat.div_eq_of_lt (by simp; omega)
  have hid : LMDBCache.setLargeBlob W fs key [] = fs := by
    rw [LMDBCache.setLargeBlob]
    simp only [hzero]
    simp
  refine ⟨hid, ?_, ?_⟩
  · intro h0
    rw [hid]
    simp [LMDBCache.hasLargeBlob, fsExists, h0]
  · intro hall
    rw [hid, LMDBCache.getLargeBlob, LMDBCache.getLargeBlobAux, hall 0]

/-- Witness for claim C10 at chunk size 4 on a directory holding an unrelated
chunk file. -/
theorem empty_setLargeBlob_invisible_witness :
    LMDBCache.setLargeBlob 4 [(("other", 0), [7])] "k" [] = [(("other", 0), [7])]
    ∧ LMDBCache.hasLargeBlob
        (LMDBCache.setLargeBlob 4 [(("other", 0), [7])] "k" []) "k" = false
    ∧ LMDBCache.getLargeBlob
        (LMDBCache.setLargeBlob 4 [(("other", 0), [7])] "k" []) "k" = [] := by
  have h := empty_setLargeBlob_invisible 4 (by decide) [(("other", 0), [7])] "k"
  exact ⟨h.1, h.2.1 (by decide), h.2.2 (fun i => by simp [fsLookup])⟩

/-! ## Reference resolution engine: replaceBundleReferences.js -/

/-- One recorded source-map offset correction of regexReplaceWithLocations. -/
structure OffsetRec where
  line : Nat
  column : Int
  offset : Int
  deriving Repr, DecidableEq

/-- Whether one placeholder token of the alternation matches at the current
position: the token is a leading subword of the remaining text.  Placeholder
tokens are dependency ids, hence nonempty and free of regex metacharacters;
empty tokens are excluded so that every match consumes at least one
character, as every JS regex match of a dependency id does. -/
def keyMatches (k rest : List Char) : Bool :=
  !k.isEmpty && k.isPrefixOf rest

/-- One step of the stable descending-length insertion modelling
Array.prototype.sort with comparator (a, b) => b.length - a.length. -/
def insertByLen (x : List Char) : List (List Char) → List (List Char)
  | [] => [x]
  | y :: ys => if y.length < x.length then x :: y :: ys else y :: insertByLen x ys

/-- The keys of the replacement map sorted by descending length (a stable
sort, as Array.prototype.sort is): longer keys get priority in the
alternation over shorter keys that are their prefixes. -/
def sortByLenDesc (l : List (List Char)) : List (List Char) :=
  l.foldl (fun acc x => insertByLen x acc) []

/-- The single left-to-right scan performed by input.replace(regex, callback)
in regexReplaceWithLocations, where regex is the global alternation of a
newline and the sorted placeholder tokens and the callback receives the
matched text and its index in the original input.  State: index = position
in the original input, line = 1-based line counter, offset = running sum of
replacement-length deltas, csi = columnStartIndex.  Alternatives are tried
in pattern order at each position: the newline first, then the keys in
their sorted order. -/
def rrwl_scan (keys : List (List Char)) (rmap : List (List Char × List Char)) :
    List Char → Nat → Nat → Int → Int → List Char × List OffsetRec
  | [], _, _, _, _ => ([], [])
  | c :: rest, index, line, offset, csi =>
    if c = '\n' then
      let r := rrwl_scan keys rmap rest (index + 1) (line + 1) offset
        ((index : Int) + offset + 1)
      ('\n' :: r.1, r.2)
    else
      match hf : keys.find? (fun k => keyMatches k (c :: rest)) with
      | some k =>
        match mapLookup rmap k with
        | some replacement =>
          let ld : Int := (replacement.length : Int) - (k.length : Int)
          let offset' := if ld = 0 then offset else offset + ld
          let r := rrwl_scan keys rmap ((c :: rest).drop k.length)
            (index + k.length) line offset' csi
          (replacement ++ r.1,
            if ld = 0 then r.2
            else ⟨line, (index : Int) + offset - csi, ld⟩ :: r.2)
        | none =>
          let r := rrwl_scan keys rmap ((c :: rest).drop k.length)
            (index + k.length) line offset csi
          (k ++ r.1, r.2)
      | none =>
        let r := rrwl_scan keys rmap rest (index + 1) line offset csi
        (c :: r.1, r.2)
termination_by l _ _ _ _ => l.length
decreasing_by
  · simp only [List.length_cons]
    omega
  · have hk := List.find?_some hf
    cases k with
    | nil => simp [keyMatches] at hk
    | cons a as =>
      simp only [List.length_drop, List.length_cons]
      omega
  · have hk := List.find?_some hf
    cases k with
    | nil => simp [keyMatches] at hk
    | cons a as =>
      simp only [List.length_drop, List.length_cons]
      omega
  · simp only [List.length_cons]
    omega

/-- regexReplaceWithLocations: sort the keys by descending length, then scan
the input once, replacing placeholders and recording offset corrections;
line starts at 1, the running offset and columnStartIndex at 0. -/
def regexReplaceWithLocations (input : List Char)
    (replacementMap : List (List Char × List Char)) :
    List Char × List OffsetRec :=
  rrwl_scan (sortByLenDesc (replacementMap.map Prod.fst)) replacementMap
    input 0 1 0 0

theorem rrwl_scan_nil (keys : List (List Char))
    (rmap : List (List Char × List Char)) (index line : Nat)
    (offset csi : Int) :
    rrwl_scan keys rmap [] index line offset csi = ([], []) := by
  rw [rrwl_scan]

theorem rrwl_scan_newline (keys : List (List Char))
    (rmap : List (List Char × List Char)) (rest : List Char)
    (index line : Nat) (offset csi : Int) :
    rrwl_scan keys rmap ('\n' :: rest) index line offset csi =
      ('\n' :: (rrwl_scan keys rmap rest (index + 1) (line + 1) offset
          ((index : Int) + offset + 1)).1,
       (rrwl_scan keys rmap rest (index + 1) (line + 1) offset
          ((index : Int) + offset + 1)).2) := by
  rw [rrwl_scan]
  simp

theorem rrwl_scan_copy (keys : List (List Char))
    (rmap : List (List Char × List Char)) (c : Char) (rest : List Char)
    (index line : Nat) (offset csi : Int) (hc : c ≠ '\n')
    (hfind : keys.find? (fun k => keyMatches k (c :: rest)) = none) :
    rrwl_scan keys rmap (c :: rest) index line offset csi =
      (c :: (rrwl_scan keys rmap rest (index + 1) line offset csi).1,
       (rrwl_scan keys rmap rest (index + 1) line offset csi).2) := by
  rw [rrwl_scan, if_neg hc]
  split
  · next k0 heq =>
      rw [hfind] at heq
      exact Option.noConfusion heq
  · rfl

theorem rrwl_scan_match (keys : List (List Char))
    (rmap : List (List Char × List Char)) (k replacement t : List Char)
    (index line : Nat) (offset csi : Int)
    (hk : k ≠ []) (hkh : k.head? ≠ some '\n')
    (hfind : keys.find? (fun x => keyMatches x (k ++ t)) = some k)
    (hlook : mapLookup rmap k = some replacement)
    (hld : (replacement.length : Int) - (k.length : Int) ≠ 0) :
    rrwl_scan keys rmap (k ++ t) index line offset csi =
      (replacement ++ (rrwl_scan keys rmap t (index + k.length) line
          (offset + ((replacement.length : Int) - (k.length : Int))) csi).1,
       ⟨line, (index : Int) + offset - csi,
          (replacement.length : Int) - (k.length : Int)⟩ ::
        (rrwl_scan keys rmap t (index + k.length) line
          (offset + ((replacement.length : Int) - (k.length : Int))) csi).2) := by
  cases k with
  | nil => exact absurd rfl hk
  | cons c k' =>
    have hc : c ≠ '\n' := by simpa using hkh
    have hdrop : ((c :: k') ++ t).drop (c :: k').length = t :=
      List.drop_left (c :: k') t
    simp only [List.cons_append] at hfind hdrop hld hlook ⊢
    rw [rrwl_scan, if_neg hc]
    split
    · next k0 heq =>
        rw [hfind] at heq
        injection heq with heqk
        subst heqk
        simp only [hlook, hdrop]
        rw [if_neg hld, if_neg hld]
    · next heq =>
        rw [hfind] at heq
        exact Option.noConfusion heq

/-- A segment of text in which the scan matches nothing: at each position
inside the segment (with the given continuation appended) the head is not a
newline and no placeholder token of the alternation matches. -/
def CleanSeg (keys : List (List Char)) (s t : List Char) : Prop :=
  ∀ i, i < s.length →
    (s.drop i ++ t).head? ≠ some '\n'
    ∧ keys.find? (fun k => keyMatches k (s.drop i ++ t)) = none

instance (keys : List (List Char)) (s t : List Char) :
    Decidable (CleanSeg keys s t) := by
  unfold CleanSeg
  infer_instance

theorem rrwl_scan_clean (keys : List (List Char))
    (rmap : List (List Char × List Char)) (s t : List Char) (line : Nat)
    (offset csi : Int) :
    ∀ index, CleanSeg keys s t →
      rrwl_scan keys rmap (s ++ t) index line offset csi =
        (s ++ (rrwl_scan keys rmap t (index + s.length) line offset csi).1,
         (rrwl_scan keys rmap t (index + s.length) line offset csi).2) := by
  induction s with
  | nil =>
    intro index _
    simp
  | cons c s ih =>
    intro index hclean
    have h0 := hclean 0 (by simp)
    simp only [List.drop_zero] at h0
    have hc : c ≠ '\n' := by
      simpa [List.cons_append] using h0.1
    have hfind : keys.find? (fun k => keyMatches k (c :: (s ++ t))) = none := by
      simpa [List.cons_append] using h0.2
    have hclean' : CleanSeg keys s t := by
      intro i hi
      simpa using hclean (i + 1) (by simpa using Nat.succ_lt_succ hi)
    rw [List.cons_append, rrwl_scan_copy _ _ _ _ _ _ _ _ hc hfind,
      ih (index + 1) hclean']
    simp only [List.cons_append, List.length_cons]
    have : index + 1 + s.length = index + (s.length + 1) := by omega
    rw [this]

theorem isPrefixOf_append_self {α : Type} [DecidableEq α] (l t : List α) :
    l.isPrefixOf (l ++ t) = true := by
  induction l with
  | nil => simp
  | cons a l ih => simp [List.isPrefixOf_cons₂, ih]

theorem keyMatches_append_self (k t : List Char) (hk : k ≠ []) :
    keyMatches k (k ++ t) = true := by
  have hne : k.isEmpty = false := by
    cases k with
    | nil => exact absurd rfl hk
    | cons a l => rfl
  simp [keyMatches, hne, isPrefixOf_append_self]

theorem mem_insertByLen (x z : List Char) (l : List (List Char)) :
    z ∈ insertByLen x l ↔ z = x ∨ z ∈ l := by
  induction l with
  | nil => simp [insertByLen]
  | cons y ys ih =>
    by_cases h : y.length < x.length
    · rw [insertByLen, if_pos h]
      simp only [List.mem_cons]
    · rw [insertByLen, if_neg h]
      simp only [List.mem_cons, ih]
      tauto

theorem mem_foldl_insertByLen (z : List Char) (l : List (List Char)) :
    ∀ acc, (z ∈ l.foldl (fun acc x => insertByLen x acc) acc
      ↔ z ∈ acc ∨ z ∈ l) := by
  induction l with
  | nil => intro acc; simp
  | cons x xs ih =>
    intro acc
    rw [List.foldl_cons, ih (insertByLen x acc), mem_insertByLen]
    simp only [List.mem_cons]
    tauto

theorem mem_sortByLenDesc (z : List Char) (l : List (List Char)) :
    z ∈ sortByLenDesc l ↔ z ∈ l := by
  rw [sortByLenDesc, mem_foldl_insertByLen]
  simp

theorem pairwise_insertByLen (x : List Char) (l : List (List Char))
    (h : l.Pairwise (fun a b => b.length ≤ a.length)) :
    (insertByLen x l).Pairwise (fun a b => b.length ≤ a.length) := by
  induction l with
  | nil => simp [insertByLen]
  | cons y ys ih =>
    rw [List.pairwise_cons] at h
    by_cases hlt : y.length < x.length
    · rw [insertByLen, if_pos hlt, List.pairwise_cons]
      refine ⟨?_, List.pairwise_cons.mpr h⟩
      intro z hz
      rcases List.mem_cons.mp hz with hz | hz
      · subst hz; omega
      · have := h.1 z hz
        omega
    · rw [insertByLen, if_neg hlt, List.pairwise_cons]
      refine ⟨?_, ih h.2⟩
      intro z hz
      rcases (mem_insertByLen x z ys).mp hz with hz | hz
      · subst hz; omega
      · exact h.1 z hz

theorem sortByLenDesc_pairwise (l : List (List Char)) :
    (sortByLenDesc l).Pairwise (fun a b => b.length ≤ a.length) := by
  rw [sortByLenDesc]
  have : ∀ acc, acc.Pairwise (fun a b => b.length ≤ a.length) →
      (l.foldl (fun acc x => insertByLen x acc) acc).Pairwise
        (fun a b => b.length ≤ a.length) := by
    induction l with
    | nil => intro acc hacc; simpa using hacc
    | cons x xs ih =>
      intro acc hacc
      exact ih (insertByLen x acc) (pairwise_insertByLen x acc hacc)
  exact this [] (by simp)

theorem find?_longest (keys : List (List Char)) (rest k : List Char)
    (hs : keys.Pairwise (fun a b => b.length ≤ a.length))
    (hf : keys.find? (fun x => keyMatches x rest) = some k) :
    ∀ k' ∈ keys, keyMatches k' rest = true → k'.length ≤ k.length := by
  induction keys with
  | nil => simp at hf
  | cons a tl ih =>
    rw [List.pairwise_cons] at hs
    rw [List.find?_cons_eq_some] at hf
    rcases hf with ⟨hpa, hak⟩ | ⟨hpa, hf⟩
    · subst hak
      intro k' hk' hm
      rcases List.mem_cons.mp hk' with h | h
      · subst h; exact le_refl _
      · exact hs.1 k' h
    · intro k' hk' hm
      rcases List.mem_cons.mp hk' with h | h
      · subst h
        simp only [Bool.not_eq_true'] at hpa
        rw [hm] at hpa
        exact Bool.noConfusion hpa
      · exact ih hs.2 hf k' h hm

theorem rrwl_scan_clean_end (keys : List (List Char))
    (rmap : List (List Char × List Char)) (s : List Char) (line : Nat)
    (offset csi : Int) :
    ∀ index, CleanSeg keys s [] →
      rrwl_scan keys rmap s index line offset csi = (s, []) := by
  intro index hclean
  have h := rrwl_scan_clean keys rmap s [] line offset csi index hclean
  rw [List.append_nil] at h
  rw [h, rrwl_scan_nil]
  simp

theorem rrwl_scan_two (k replacement a b c2 : List Char)
    (hk : k ≠ []) (hkh : k.head? ≠ some '\n')
    (hld : (replacement.length : Int) - (k.length : Int) ≠ 0)
    (ha : CleanSeg [k] a (k ++ (b ++ (k ++ c2))))
    (hb : CleanSeg [k] b (k ++ c2))
    (hc : CleanSeg [k] c2 []) :
    ∀ (index line : Nat) (offset csi : Int),
      rrwl_scan [k] [(k, replacement)] (a ++ (k ++ (b ++ (k ++ c2))))
          index line offset csi =
        (a ++ (replacement ++ (b ++ (replacement ++ c2))),
         [⟨line, ((index + a.length : Nat) : Int) + offset - csi,
            (replacement.length : Int) - (k.length : Int)⟩,
          ⟨line,
            ((index + a.length + k.length + b.length : Nat) : Int)
              + (offset + ((replacement.length : Int) - (k.length : Int))) - csi,
            (replacement.length : Int) - (k.length : Int)⟩]) := by
  have hlook : mapLookup [(k, replacement)] k = some replacement := by
    simp [mapLookup]
  have hfind : ∀ t, List.find? (fun x => keyMatches x (k ++ t)) [k] = some k := by
    intro t
    apply List.find?_cons_of_pos
    simpa using keyMatches_append_self k t hk
  intro index line offset csi
  rw [rrwl_scan_clean [k] [(k, replacement)] a (k ++ (b ++ (k ++ c2)))
      line offset csi index ha]
  rw [rrwl_scan_match [k] [(k, replacement)] k replacement (b ++ (k ++ c2))
      (index + a.length) line offset csi hk hkh (hfind (b ++ (k ++ c2)))
      hlook hld]
  rw [rrwl_scan_clean [k] [(k, replacement)] b (k ++ c2) line
      (offset + ((replacement.length : Int) - (k.length : Int))) csi
      (index + a.length + k.length) hb]
  rw [rrwl_scan_match [k] [(k, replacement)] k replacement c2
      (index + a.length + k.length + b.length) line
      (offset + ((replacement.length : Int) - (k.length : Int))) csi hk hkh
      (hfind c2) hlook hld]
  rw [rrwl_scan_clean_end [k] [(k, replacement)] c2 line
      (offset + ((replacement.length : Int) - (k.length : Int))
        + ((replacement.length : Int) - (k.length : Int))) csi
      (index + a.length + k.length + b.length + k.length) hc]

theorem rrwl_two_placeholder_spec (k replacement a b c2 : List Char)
    (hk : k ≠ []) (hkh : k.head? ≠ some '\n')
    (hld : (replacement.length : Int) - (k.length : Int) ≠ 0)
    (ha : CleanSeg [k] a (k ++ (b ++ (k ++ c2))))
    (hb : CleanSeg [k] b (k ++ c2))
    (hc : CleanSeg [k] c2 []) :
    regexReplaceWithLocations ('\n' :: (a ++ (k ++ (b ++ (k ++ c2)))))
        [(k, replacement)] =
      ('\n' :: (a ++ (replacement ++ (b ++ (replacement ++ c2)))),
       [⟨2, (a.length : Int), (replacement.length : Int) - (k.length : Int)⟩,
        ⟨2, ((a.length + k.length + b.length : Nat) : Int)
            + ((replacement.length : Int) - (k.length : Int)),
          (replacement.length : Int) - (k.length : Int)⟩]) := by
  have hkeys : sortByLenDesc (List.map Prod.fst [(k, replacement)]) = [k] := rfl
  unfold regexReplaceWithLocations
  rw [hkeys, rrwl_scan_newline,
    rrwl_scan_two k replacement a b c2 hk hkh hld ha hb hc (0 + 1) (1 + 1) 0
      (((0 : Nat) : Int) + 0 + 1)]
  simp only [Prod.mk.injEq, List.cons.injEq, OffsetRec.mk.injEq, and_true]
  refine ⟨trivial, ⟨trivial, ?_⟩, trivial, ?_⟩ <;> push_cast <;> ring

/-- Claim C2 (amended): a correction is recorded exactly when the replacement
differs in length from the matched token, at the current line and at column
index + offset - columnStartIndex, where offset is the running delta at match
time and columnStartIndex is the rewritten-text position of the line start.
Hence for a second placeholder later on the same line as an earlier
length-changing replacement, the reported column is that placeholder's column
in the REWRITTEN text — its column in the original text plus the cumulative
delta of the earlier replacements on that line — not its original column. -/
theorem second_placeholder_column_rewritten (k replacement a b c2 : List Char)
    (hk : k ≠ []) (hkh : k.head? ≠ some '\n')
    (hld : (replacement.length : Int) - (k.length : Int) ≠ 0)
    (ha : CleanSeg [k] a (k ++ (b ++ (k ++ c2))))
    (hb : CleanSeg [k] b (k ++ c2))
    (hc : CleanSeg [k] c2 []) :
    regexReplaceWithLocations ('\n' :: (a ++ (k ++ (b ++ (k ++ c2)))))
        [(k, replacement)] =
      ('\n' :: (a ++ (replacement ++ (b ++ (replacement ++ c2)))),
       [⟨2, (a.length : Int), (replacement.length : Int) - (k.length : Int)⟩,
        ⟨2, ((a.length + k.length + b.length : Nat) : Int)
            + ((replacement.length : Int) - (k.length : Int)),
          (replacement.length : Int) - (k.length : Int)⟩]) :=
  rrwl_two_placeholder_spec k replacement a b c2 hk hkh hld ha hb hc

/-- Witness for the amended claim C2: replacing AAA by BBBBB (delta 2) twice
on line 2 of an input whose line 2 reads xyAAAzAAAw; the first correction is
at column 2 and the second at column 8 = 6 + 2, the rewritten-text column of
the second placeholder (original column 6 shifted by the earlier delta 2). -/
theorem second_placeholder_column_rewritten_witness :
    regexReplaceWithLocations
        ('\n' :: ("xy".data ++ ("AAA".data ++ ("z".data
          ++ ("AAA".data ++ "w".data))))) [("AAA".data, "BBBBB".data)] =
      ('\n' :: ("xy".data ++ ("BBBBB".data ++ ("z".data
          ++ ("BBBBB".data ++ "w".data)))),
       [⟨2, 2, 2⟩, ⟨2, 8, 2⟩]) := by
  rw [second_placeholder_column_rewritten "AAA".data "BBBBB".data "xy".data
    "z".data "w".data (by decide) (by decide) (by decide) (by decide)
    (by decide) (by decide)]
  decide

/-- Claim C2 counterexample: on the input whose second line reads AAAqAAA,
with the single replacement AAA -> BBBBB (delta 2), the second placeholder
sits at column 4 of line 2 in the ORIGINAL text, yet the recorded correction
column is 6 (its column in the rewritten text), refuting the claim that the
reported column equals the placeholder's column in the original text. -/
theorem second_placeholder_column_counterexample :
    (regexReplaceWithLocations
        ('\n' :: ([] ++ ("AAA".data ++ ("q".data ++ ("AAA".data ++ [])))))
        [("AAA".data, "BBBBB".data)]).2.map OffsetRec.column = [0, 6]
    ∧ ((6 : Int) ≠ 4) := by
  constructor
  · rw [rrwl_two_placeholder_spec "AAA".data "BBBBB".data [] "q".data []
      (by decide) (by decide) (by decide) (by decide) (by decide) (by decide)]
    decide
  · decide

/-- Claim C3: placeholder tokens are sorted by descending length before the
alternation is built, so the token matched at any position has maximal length
among the mapping's tokens matching there; in particular for the mapping
abc -> X, abcdef -> Y on the text "abcdef" the result is "Y", never "Xdef". -/
theorem longest_token_priority :
    (∀ (rmap : List (List Char × List Char)) (rest k : List Char),
        (sortByLenDesc (rmap.map Prod.fst)).find?
            (fun x => keyMatches x rest) = some k →
        ∀ k' ∈ rmap.map Prod.fst, keyMatches k' rest = true →
          k'.length ≤ k.length)
    ∧ (regexReplaceWithLocations "abcdef".data
        [("abc".data, "X".data), ("abcdef".data, "Y".data)]).1 = "Y".data := by
  constructor
  · intro rmap rest k hf k' hk' hm
    exact find?_longest _ rest k (sortByLenDesc_pairwise _) hf k'
      ((mem_sortByLenDesc k' _).mpr hk') hm
  · unfold regexReplaceWithLocations
    have hkeys : sortByLenDesc (List.map Prod.fst
        [("abc".data, "X".data), ("abcdef".data, "Y".data)])
        = ["abcdef".data, "abc".data] := by decide
    rw [hkeys]
    have h := rrwl_scan_match ["abcdef".data, "abc".data]
        [("abc".data, "X".data), ("abcdef".data, "Y".data)]
        "abcdef".data "Y".data [] 0 1 0 0 (by decide) (by decide) (by decide)
        (by decide) (by decide)
    rw [List.append_nil] at h
    rw [h, rrwl_scan_nil]
    decide

/-- Witness for claim C3: the shorter key abc, which also matches at the
start of "abcdef", is indeed no longer than the matched key abcdef, and the
concrete replacement result is "Y". -/
theorem longest_token_priority_witness :
    ("abc".data).length ≤ ("abcdef".data).length
    ∧ (regexReplaceWithLocations "abcdef".data
        [("abc".data, "X".data), ("abcdef".data, "Y".data)]).1 = "Y".data :=
  ⟨longest_token_priority.1
      [("abc".data, "X".data), ("abcdef".data, "Y".data)]
      "abcdef".data "abcdef".data (by decide) "abc".data (by decide)
      (by decide),
    longest_token_priority.2⟩

/-! ## URL and inline reference passes -/

/-- The meta record of a bundle entry asset, as read by the inline pass. -/
structure AssetMeta where
  inlineType : Option String
  deriving DecidableEq

/-- A named bundle as seen by the replacement passes. -/
structure BundleB where
  isInline : Bool
  name : String
  publicUrl : String
  entryAssets : List AssetMeta
  deriving DecidableEq

/-- A dependency node collected by the bundle traversal. -/
structure Dep where
  id : String
  isURL : Bool
  moduleSpecifier : String
  deriving DecidableEq

/-- getURLReplacement.  URL.parse, the pathname assignment and URL.format
are modelled by the collaborator function setPathname (original specifier,
new pathname), and relativeBundlePath / urlJoin are the collaborator path
helpers of the utils package: in relative mode the path from the current
bundle to the target rewrites the pathname of the literal specifier,
otherwise the target's public URL is joined with its final name. -/
def getURLReplacement (setPathname : String → String → String)
    (urlJoin : String → String → String)
    (relativeBundlePath : BundleB → BundleB → String)
    (dep : Dep) (fromBundle toBundle : BundleB) (relative : Bool) :
    String × String :=
  if relative then
    (dep.id, setPathname dep.moduleSpecifier
      (relativeBundlePath fromBundle toBundle))
  else
    (dep.id, urlJoin toBundle.publicUrl
      (setPathname dep.moduleSpecifier toBundle.name))

/-- The body of the per-dependency loop of replaceURLReferences: the
replacement registered for one dependency, if any — none when the dependency
is not URL-shaped, its literal module specifier when it resolves to no
bundle at all, none when it resolves to an inline bundle (left to the inline
pass to avoid double substitution), and the computed URL otherwise. -/
def urlReplacementForDep (getReferencedBundle : Dep → Option BundleB)
    (setPathname urlJoin : String → String → String)
    (relativeBundlePath : BundleB → BundleB → String)
    (fromBundle : BundleB) (relative : Bool) (dep : Dep) :
    Option (String × (String × String)) :=
  if !dep.isURL then none
  else
    match getReferencedBundle dep with
    | none => some (dep.id, (dep.id, dep.moduleSpecifier))
    | some resolved =>
      if resolved.isInline then none
      else some (dep.id, getURLReplacement setPathname urlJoin
        relativeBundlePath dep fromBundle resolved relative)

/-- The replacements map built by replaceURLReferences over the bundle's URL
dependencies (bundle.traverse collects the dependency nodes with isURL). -/
def urlReplacements (getReferencedBundle : Dep → Option BundleB)
    (setPathname urlJoin : String → String → String)
    (relativeBundlePath : BundleB → BundleB → String)
    (fromBundle : BundleB) (relative : Bool) (deps : List Dep) :
    List (String × (String × String)) :=
  (deps.filter (fun d => d.isURL)).foldl
    (fun m dep =>
      match urlReplacementForDep getReferencedBundle setPathname urlJoin
          relativeBundlePath fromBundle relative dep with
      | none => m
      | some (key, v) => mapSet m key v) []

/-- performReplacement: feed the from/to pairs of the replacements map into
regexReplaceWithLocations.  (The source also applies the returned offsets to
the attached source map; the map itself is not modelled.) -/
def performReplacement (replacements : List (String × (String × String)))
    (contents : List Char) : List Char × List OffsetRec :=
  regexReplaceWithLocations contents
    ((replacements.map Prod.snd).foldl
      (fun m p => mapSet m p.1.data p.2.data) [])

/-- replaceURLReferences on the packaged contents (source map omitted). -/
def replaceURLReferences (getReferencedBundle : Dep → Option BundleB)
    (setPathname urlJoin : String → String → String)
    (relativeBundlePath : BundleB → BundleB → String)
    (fromBundle : BundleB) (relative : Bool) (deps : List Dep)
    (contents : List Char) : List Char × List OffsetRec :=
  performReplacement
    (urlReplacements getReferencedBundle setPathname urlJoin
      relativeBundlePath fromBundle relative deps) contents

/-- The body of the per-dependency loop of replaceInlineReferences: skip
dependencies that do not resolve to an inline bundle; package the target
bundle (getInlineBundleContents, already materialized to a string, matching
the source's bufferStream draining); nullthrows the first entry asset; then
register the formatted replacement only when that asset's meta.inlineType is
unset or exactly "string". -/
def inlineReplacementForDep (getReferencedBundle : Dep → Option BundleB)
    (getInlineBundleContents : BundleB → String)
    (getInlineReplacement : Dep → Option String → String → String × String)
    (dep : Dep) : Except String (Option (String × (String × String))) :=
  match getReferencedBundle dep with
  | none => .ok none
  | some entryBundle =>
    if !entryBundle.isInline then .ok none
    else
      let packagedContents := getInlineBundleContents entryBundle
      match entryBundle.entryAssets.head? with
      | none => .error "Found null, expected a value"
      | some entryAsset =>
        if entryAsset.inlineType = none
            ∨ entryAsset.inlineType = some "string" then
          .ok (some (dep.id,
            getInlineReplacement dep entryAsset.inlineType packagedContents))
        else .ok none

/-- The replacements map built by replaceInlineReferences over the bundle's
dependency nodes. -/
def inlineReplacements (getReferencedBundle : Dep → Option BundleB)
    (getInlineBundleContents : BundleB → String)
    (getInlineReplacement : Dep → Option String → String → String × String)
    (deps : List Dep) :
    Except String (List (String × (String × String))) :=
  deps.foldlM
    (fun m dep =>
      match inlineReplacementForDep getReferencedBundle
          getInlineBundleContents getInlineReplacement dep with
      | .error e => .error e
      | .ok none => .ok m
      | .ok (some (key, v)) => .ok (mapSet m key v)) []

/-- replaceInlineReferences on the packaged contents (source map omitted). -/
def replaceInlineReferences (getReferencedBundle : Dep → Option BundleB)
    (getInlineBundleContents : BundleB → String)
    (getInlineReplacement : Dep → Option String → String → String × String)
    (deps : List Dep) (contents : List Char) :
    Except String (List Char × List OffsetRec) :=
  (inlineReplacements getReferencedBundle getInlineBundleContents
    getInlineReplacement deps).map
    (fun reps => performReplacement reps contents)

theorem urlReplacementForDep_key (getReferencedBundle : Dep → Option BundleB)
    (setPathname urlJoin : String → String → String)
    (relativeBundlePath : BundleB → BundleB → String)
    (fromBundle : BundleB) (relative : Bool) (dep : Dep)
    (key : String) (v : String × String)
    (h : urlReplacementForDep getReferencedBundle setPathname urlJoin
        relativeBundlePath fromBundle relative dep = some (key, v)) :
    key = dep.id := by
  unfold urlReplacementForDep at h
  split at h
  · exact Option.noConfusion h
  · split at h
    · simp only [Option.some.injEq, Prod.mk.injEq] at h
      exact h.1.symm
    · split at h
      · exact Option.noConfusion h
      · simp only [Option.some.injEq, Prod.mk.injEq] at h
        exact h.1.symm

theorem urlReplacements_fold_lookup_none (getReferencedBundle : Dep → Option BundleB)
    (setPathname urlJoin : String → String → String)
    (relativeBundlePath : BundleB → BundleB → String)
    (fromBundle : BundleB) (relative : Bool) (dep : Dep)
    (hnone : urlReplacementForDep getReferencedBundle setPathname urlJoin
        relativeBundlePath fromBundle relative dep = none) :
    ∀ (l : List Dep) (m : List (String × (String × String))),
      (∀ d ∈ l, d.id = dep.id → d = dep) →
      mapLookup m dep.id = none →
      mapLookup (l.foldl
        (fun m d =>
          match urlReplacementForDep getReferencedBundle setPathname urlJoin
              relativeBundlePath fromBundle relative d with
          | none => m
          | some (key, v) => mapSet m key v) m) dep.id = none := by
  intro l
  induction l with
  | nil =>
    intro m _ hm
    simpa using hm
  | cons d l ih =>
    intro m hl hm
    rw [List.foldl_cons]
    apply ih _ (fun x hx hid => hl x (List.mem_cons_of_mem _ hx) hid)
    cases hstep : urlReplacementForDep getReferencedBundle setPathname urlJoin
        relativeBundlePath fromBundle relative d with
    | none => exact hm
    | some kv =>
      obtain ⟨key, v⟩ := kv
      have hkey : key = d.id :=
        urlReplacementForDep_key getReferencedBundle setPathname urlJoin
          relativeBundlePath fromBundle relative d key v hstep
      subst hkey
      by_cases hid : d.id = dep.id
      · have hd : d = dep := hl d (List.mem_cons_self d l) hid
        subst hd
        rw [hstep] at hnone
        exact Option.noConfusion hnone
      · rw [mapLookup_mapSet_ne m dep.id d.id v hid]
        exact hm

theorem urlReplacements_fold_lookup_some (getReferencedBundle : Dep → Option BundleB)
    (setPathname urlJoin : String → String → String)
    (relativeBundlePath : BundleB → BundleB → String)
    (fromBundle : BundleB) (relative : Bool) (dep : Dep) (v : String × String)
    (hsome : urlReplacementForDep getReferencedBundle setPathname urlJoin
        relativeBundlePath fromBundle relative dep = some (dep.id, v)) :
    ∀ (l : List Dep) (m : List (String × (String × String))),
      (∀ d ∈ l, d.id = dep.id → d = dep) →
      (dep ∈ l ∨ mapLookup m dep.id = some v) →
      mapLookup (l.foldl
        (fun m d =>
          match urlReplacementForDep getReferencedBundle setPathname urlJoin
              relativeBundlePath fromBundle relative d with
          | none => m
          | some (key, v) => mapSet m key v) m) dep.id = some v := by
  intro l
  induction l with
  | nil =>
    intro m _ hm
    rcases hm with hm | hm
    · simp at hm
    · simpa using hm
  | cons d l ih =>
    intro m hl hm
    rw [List.foldl_cons]
    apply ih _ (fun x hx hid => hl x (List.mem_cons_of_mem _ hx) hid)
    by_cases hd : d = dep
    · subst hd
      rw [hsome]
      right
      exact mapLookup_mapSet_self m d.id v
    · have hid : d.id ≠ dep.id := fun hid =>
        hd (hl d (List.mem_cons_self d l) hid)
      rcases hm with hm | hm
      · rcases List.mem_cons.mp hm with hm | hm
        · exact absurd hm.symm hd
        · left; exact hm
      · right
        cases hstep : urlReplacementForDep getReferencedBundle setPathname
            urlJoin relativeBundlePath fromBundle relative d with
        | none => exact hm
        | some kv =>
          obtain ⟨key, v'⟩ := kv
          have hkey : key = d.id :=
            urlReplacementForDep_key getReferencedBundle setPathname urlJoin
              relativeBundlePath fromBundle relative d key v' hstep
          subst hkey
          rw [mapLookup_mapSet_ne m dep.id d.id v' hid]
          exact hm

/-- Claim C7: a URL-style dependency that the bundle-graph query resolves to
no bundle has its dependency-id placeholder replaced with the dependency's
original literal module specifier, unchanged: replaceURLReferences registers
the substitution id -> moduleSpecifier for it. -/
theorem unresolved_url_uses_moduleSpecifier
    (getReferencedBundle : Dep → Option BundleB)
    (setPathname urlJoin : String → String → String)
    (relativeBundlePath : BundleB → BundleB → String)
    (fromBundle : BundleB) (relative : Bool) (deps : List Dep) (dep : Dep)
    (hmem : dep ∈ deps) (hurl : dep.isURL = true)
    (hres : getReferencedBundle dep = none)
    (huniq : ∀ d ∈ deps, d.id = dep.id → d = dep) :
    mapLookup (urlReplacements getReferencedBundle setPathname urlJoin
        relativeBundlePath fromBundle relative deps) dep.id
      = some (dep.id, dep.moduleSpecifier) := by
  have hsome : urlReplacementForDep getReferencedBundle setPathname urlJoin
      relativeBundlePath fromBundle relative dep
      = some (dep.id, (dep.id, dep.moduleSpecifier)) := by
    simp [urlReplacementForDep, hurl, hres]
  unfold urlReplacements
  apply urlReplacements_fold_lookup_some getReferencedBundle setPathname
    urlJoin relativeBundlePath fromBundle relative dep
    (dep.id, dep.moduleSpecifier) hsome
  · intro d hd hid
    exact huniq d (List.mem_filter.mp hd).1 hid
  · left
    exact List.mem_filter.mpr ⟨hmem, hurl⟩

/-- Witness for claim C7: a bundle with one external URL dependency d1 whose
resolution is absent; the registered replacement maps d1 to the literal
specifier. -/
theorem unresolved_url_uses_moduleSpecifier_witness :
    mapLookup (urlReplacements (fun _ => none) (fun _ p => p)
        (fun a b => a ++ b) (fun _ _ => "rel") ⟨false, "main.js", "/", []⟩
        true [⟨"d1", true, "https://cdn/x.js"⟩, ⟨"d2", false, "./y"⟩]) "d1"
      = some ("d1", "https://cdn/x.js") :=
  unresolved_url_uses_moduleSpecifier (fun _ => none) (fun _ p => p)
    (fun a b => a ++ b) (fun _ _ => "rel") ⟨false, "main.js", "/", []⟩ true
    [⟨"d1", true, "https://cdn/x.js"⟩, ⟨"d2", false, "./y"⟩]
    ⟨"d1", true, "https://cdn/x.js"⟩ (by decide) rfl rfl (by decide)

/-- Claim C6: a dependency resolving to an inline bundle is skipped by the
URL pass (no replacement registered for its placeholder), while the inline
pass registers the formatted replacement for it exactly when the target's
entry asset declared inline type is unset or exactly "string", and leaves it
unsubstituted otherwise. -/
theorem inline_pass_condition
    (getReferencedBundle : Dep → Option BundleB)
    (setPathname urlJoin : String → String → String)
    (relativeBundlePath : BundleB → BundleB → String)
    (fromBundle : BundleB) (relative : Bool)
    (getInlineBundleContents : BundleB → String)
    (getInlineReplacement : Dep → Option String → String → String × String)
    (deps : List Dep) (dep : Dep) (b : BundleB) (entryAsset : AssetMeta)
    (hres : getReferencedBundle dep = some b) (hinl : b.isInline = true)
    (hentry : b.entryAssets.head? = some entryAsset)
    (huniq : ∀ d ∈ deps, d.id = dep.id → d = dep) :
    urlReplacementForDep getReferencedBundle setPathname urlJoin
        relativeBundlePath fromBundle relative dep = none
    ∧ mapLookup (urlReplacements getReferencedBundle setPathname urlJoin
        relativeBundlePath fromBundle relative deps) dep.id = none
    ∧ (inlineReplacementForDep getReferencedBundle getInlineBundleContents
          getInlineReplacement dep
        = .ok (some (dep.id, getInlineReplacement dep entryAsset.inlineType
            (getInlineBundleContents b)))
      ↔ (entryAsset.inlineType = none
          ∨ entryAsset.inlineType = some "string"))
    ∧ (entryAsset.inlineType ≠ none → entryAsset.inlineType ≠ some "string" →
        inlineReplacementForDep getReferencedBundle getInlineBundleContents
          getInlineReplacement dep = .ok none) := by
  have hurlnone : urlReplacementForDep getReferencedBundle setPathname urlJoin
      relativeBundlePath fromBundle relative dep = none := by
    by_cases hu : dep.isURL
    · simp [urlReplacementForDep, hu, hres, hinl]
    · simp [urlReplacementForDep, hu]
  have hinline : inlineReplacementForDep getReferencedBundle
      getInlineBundleContents getInlineReplacement dep
      = if entryAsset.inlineType = none ∨ entryAsset.inlineType = some "string"
        then .ok (some (dep.id, getInlineReplacement dep entryAsset.inlineType
          (getInlineBundleContents b)))
        else .ok none := by
    simp [inlineReplacementForDep, hres, hinl, hentry]
  refine ⟨hurlnone, ?_, ?_, ?_⟩
  · unfold urlReplacements
    apply urlReplacements_fold_lookup_none getReferencedBundle setPathname
      urlJoin relativeBundlePath fromBundle relative dep hurlnone
    · intro d hd hid
      exact huniq d (List.mem_filter.mp hd).1 hid
    · rfl
  · rw [hinline]
    by_cases hgood : entryAsset.inlineType = none
        ∨ entryAsset.inlineType = some "string"
    · simp [hgood]
    · simp [hgood]
  · intro h1 h2
    rw [hinline, if_neg (by tauto)]

/-- Witness for claim C6: a dependency d1 resolving to an inline bundle
whose entry asset declares inline type "string": the URL pass registers
nothing and the inline pass registers the formatted payload. -/
theorem inline_pass_condition_witness :
    urlReplacementForDep
        (fun d => if d.id = "d1"
          then some ⟨true, "inb", "/", [⟨some "string"⟩]⟩ else none)
        (fun _ p => p) (fun a b => a ++ b) (fun _ _ => "rel")
        ⟨false, "main.js", "/", []⟩ true ⟨"d1", true, "./inline"⟩ = none
    ∧ mapLookup (urlReplacements
        (fun d => if d.id = "d1"
          then some ⟨true, "inb", "/", [⟨some "string"⟩]⟩ else none)
        (fun _ p => p) (fun a b => a ++ b) (fun _ _ => "rel")
        ⟨false, "main.js", "/", []⟩ true [⟨"d1", true, "./inline"⟩]) "d1"
        = none
    ∧ (inlineReplacementForDep
          (fun d => if d.id = "d1"
            then some ⟨true, "inb", "/", [⟨some "string"⟩]⟩ else none)
          (fun _ => "PKG") (fun d _ s => (d.id, s)) ⟨"d1", true, "./inline"⟩
        = .ok (some ("d1", ("d1", "PKG")))
      ↔ ((some "string" : Option String) = none
          ∨ (some "string" : Option String) = some "string"))
    ∧ ((some "string" : Option String) ≠ none →
        (some "string" : Option String) ≠ some "string" →
        inlineReplacementForDep
          (fun d => if d.id = "d1"
            then some ⟨true, "inb", "/", [⟨some "string"⟩]⟩ else none)
          (fun _ => "PKG") (fun d _ s => (d.id, s)) ⟨"d1", true, "./inline"⟩
          = .ok none) :=
  inline_pass_condition
    (fun d => if d.id = "d1"
      then some ⟨true, "inb", "/", [⟨some "string"⟩]⟩ else none)
    (fun _ p => p) (fun a b => a ++ b) (fun _ _ => "rel")
    ⟨false, "main.js", "/", []⟩ true (fun _ => "PKG")
    (fun d _ s => (d.id, s)) [⟨"d1", true, "./inline"⟩]
    ⟨"d1", true, "./inline"⟩ ⟨true, "inb", "/", [⟨some "string"⟩]⟩
    ⟨some "string"⟩ (by decide) rfl rfl (by decide)

/-! ## Asset identity registry: public Asset wrappers -/

/-- The value record of an uncommitted asset — only the fields the embedded
operations touch (the uniqueKey setter of MutableAsset). -/
structure AssetValue where
  id : String
  type : String
  uniqueKey : Option String
  deriving DecidableEq

/-- The module-level wrapper registries of the public Asset module: the three
identity-to-wrapper maps (uncommittedAssetValueToAsset keyed by uncommitted
value record, assetValueToMutableAsset keyed by value record,
committedAssetValueToAsset keyed by committed address), the reverse links
set by the constructors, and an allocator of fresh wrapper object
identities.  JS object identities (of value records and of wrapper objects)
are modelled by numbers; committed addresses by strings. -/
structure RegistryState where
  uncommittedAssetValueToAsset : List (Nat × Nat)
  assetValueToMutableAsset : List (Nat × Nat)
  mutableAssetToUncommittedAsset : List (Nat × Nat)
  committedAssetValueToAsset : List (String × Nat)
  assetToAssetValue : List (Nat × String)
  nextObjectId : Nat
  deriving DecidableEq

/-- The Asset constructor: return the wrapper already registered for the
uncommitted value record when one exists, otherwise allocate a fresh wrapper
object and register it under the value record. -/
def Asset.construct (s : RegistryState) (value : Nat) : RegistryState × Nat :=
  match mapLookup s.uncommittedAssetValueToAsset value with
  | some existing => (s, existing)
  | none =>
    let w := s.nextObjectId
    ({ s with
        uncommittedAssetValueToAsset :=
          mapSet s.uncommittedAssetValueToAsset value w,
        nextObjectId := w + 1 }, w)

/-- The MutableAsset constructor: canonical per value record; a fresh wrapper
also records its link back to the underlying uncommitted asset. -/
def MutableAsset.construct (s : RegistryState) (value : Nat) :
    RegistryState × Nat :=
  match mapLookup s.assetValueToMutableAsset value with
  | some existing => (s, existing)
  | none =>
    let w := s.nextObjectId
    ({ s with
        assetValueToMutableAsset := mapSet s.assetValueToMutableAsset value w,
        mutableAssetToUncommittedAsset :=
          mapSet s.mutableAssetToUncommittedAsset w value,
        nextObjectId := w + 1 }, w)

/-- The CommittedAsset constructor: canonical per committed address
(asset.value.addr); a fresh wrapper also records its link to the address. -/
def CommittedAsset.construct (s : RegistryState) (addr : String) :
    RegistryState × Nat :=
  match mapLookup s.committedAssetValueToAsset addr with
  | some existing => (s, existing)
  | none =>
    let w := s.nextObjectId
    ({ s with
        committedAssetValueToAsset :=
          mapSet s.committedAssetValueToAsset addr w,
        assetToAssetValue := mapSet s.assetToAssetValue w addr,
        nextObjectId := w + 1 }, w)

/-- Claim C1: constructing a wrapper twice for the same underlying identity
returns the same wrapper object in each of the three categories — Asset per
uncommitted value record, MutableAsset per value record, CommittedAsset per
committed address: the second construction returns the registered object
and leaves the registry unchanged (the construction is idempotent). -/
theorem wrapper_constructors_canonicalize (s : RegistryState) (value : Nat)
    (addr : String) :
    Asset.construct (Asset.construct s value).1 value = Asset.construct s value
    ∧ MutableAsset.construct (MutableAsset.construct s value).1 value
        = MutableAsset.construct s value
    ∧ CommittedAsset.construct (CommittedAsset.construct s addr).1 addr
        = CommittedAsset.construct s addr := by
  refine ⟨?_, ?_, ?_⟩
  · cases h : mapLookup s.uncommittedAssetValueToAsset value with
    | some w => simp [Asset.construct, h]
    | none => simp [Asset.construct, h, mapLookup_mapSet_self]
  · cases h : mapLookup s.assetValueToMutableAsset value with
    | some w => simp [MutableAsset.construct, h]
    | none => simp [MutableAsset.construct, h, mapLookup_mapSet_self]
  · cases h : mapLookup s.committedAssetValueToAsset addr with
    | some w => simp [CommittedAsset.construct, h]
    | none => simp [CommittedAsset.construct, h, mapLookup_mapSet_self]

/-- The MutableAsset uniqueKey setter: refuse to change an already-set
uniqueKey with the InvalidState error, otherwise store the new value. -/
def MutableAsset.setUniqueKey (v : AssetValue) (uniqueKey : Option String) :
    Except String AssetValue :=
  if v.uniqueKey ≠ none then
    .error "Cannot change an asset's uniqueKey after it has been set."
  else
    .ok { v with uniqueKey := uniqueKey }

/-- Claim C9: assigning uniqueKey when it is already set fails with the
InvalidState error (the thrown error performs no assignment, so the stored
record is unchanged), while assigning it when unset succeeds. -/
theorem setUniqueKey_once (v : AssetValue) (u : Option String) :
    (∀ k, v.uniqueKey = some k →
      MutableAsset.setUniqueKey v u
        = .error "Cannot change an asset's uniqueKey after it has been set.")
    ∧ (v.uniqueKey = none →
      MutableAsset.setUniqueKey v u = .ok { v with uniqueKey := u }) := by
  constructor
  · intro k hk
    simp [MutableAsset.setUniqueKey, hk]
  · intro hk
    simp [MutableAsset.setUniqueKey, hk]

/-- Witness for claim C9: re-assigning an already-set uniqueKey fails with
the exact error message; assigning an unset one succeeds. -/
theorem setUniqueKey_once_witness :
    MutableAsset.setUniqueKey ⟨"a1", "js", some "k0"⟩ (some "k1")
        = .error "Cannot change an asset's uniqueKey after it has been set."
    ∧ MutableAsset.setUniqueKey ⟨"a1", "js", none⟩ (some "k1")
        = .ok ⟨"a1", "js", some "k1"⟩ :=
  ⟨(setUniqueKey_once ⟨"a1", "js", some "k0"⟩ (some "k1")).1 "k0" rfl,
    (setUniqueKey_once ⟨"a1", "js", none⟩ (some "k1")).2 rfl⟩
